import Mathlib

/-!
Verification development for the `wa_audio_to_text` repository
(`src/main.py`, `src/cli.py`).

Python text values are modelled as `List Char`.  Python `float` second
values appearing in transcript segments are modelled as exact counts of
milliseconds (`Nat`): every concrete time in the claims has at most three
decimal places, and `format_timestamp`'s `%06.3f` rendering of such a
value is exactly the padded decimal-digit rendering of its millisecond
count.  The external services (`ffmpeg`, `whisper`) are opaque
collaborators of the repository; they are modelled by explicit behaviour
records passed to the embedded functions, and filesystem directories are
modelled as association lists from file stem to file contents.
-/

namespace WaAudio

/-- Characters stripped by Python `str.strip()` and used as separators by
`str.split()` (ASCII whitespace; the transcripts in question contain no
exotic Unicode whitespace). -/
def isSpace (c : Char) : Bool :=
  c = ' ' || c = '\t' || c = '\n' || c = '\r' || c = '\x0b' || c = '\x0c'

/-- Python `str.strip()`: remove leading and trailing whitespace. -/
def pyStrip (l : List Char) : List Char :=
  ((l.dropWhile isSpace).reverse.dropWhile isSpace).reverse

/-- Prepend a character to the first chunk of a chunk list. -/
def consHead (c : Char) : List (List Char) → List (List Char)
  | [] => [[c]]
  | w :: ws => (c :: w) :: ws

/-- Split a character list into the chunks delimited by characters
satisfying `p`; empty chunks are kept (as Python `str.split(sep)` would).
The result is always non-empty. -/
def chunksBy (p : Char → Bool) : List Char → List (List Char)
  | [] => [[]]
  | c :: cs => if p c then [] :: chunksBy p cs else consHead c (chunksBy p cs)

/-- Python `str.split()` with no separator argument: maximal runs of
non-whitespace characters. -/
def words (l : List Char) : List (List Char) :=
  (chunksBy isSpace l).filter (fun w => w ≠ [])

/-- Python `"\n"`-line decomposition of a string (chunks between newline
characters, with the trailing newline producing a final empty chunk). -/
def splitNl (l : List Char) : List (List Char) :=
  chunksBy (fun c => c = '\n') l

/-- The lines Python file iteration yields for a file with contents `l`,
with each line's trailing newline removed (the stripper's `re.sub`,
`re.search` and `str.strip` are all insensitive to that trailing
newline, so dropping it is faithful): `splitNl` minus the empty chunk a
trailing newline produces. -/
def pyLines (l : List Char) : List (List Char) :=
  let cs := splitNl l
  if cs.getLast? = some [] then cs.dropLast else cs

/-- Python `"x".join`-style joining with a single separator character
between consecutive chunks (no trailing separator). -/
def joinSep (sep : Char) : List (List Char) → List Char
  | [] => []
  | [w] => w
  | w :: ws => w ++ sep :: joinSep sep ws

/-- Python `" ".join`. -/
def spaceJoin (ws : List (List Char)) : List Char := joinSep ' ' ws

/-- Whitespace normalization: collapse every whitespace run to a single
space and drop leading/trailing whitespace, i.e.
`" ".join(s.split())`. -/
def normalizeWs (l : List Char) : List Char := spaceJoin (words l)

/-- The ASCII digit character of `n % 10`. -/
def digitChar (n : Nat) : Char := Char.ofNat (48 + n % 10)

/-- Decimal digit rendering, accumulator-based and structurally
recursive on a fuel argument that is always sufficient. -/
def digitsAux : Nat → Nat → List Char → List Char
  | 0, _, acc => acc
  | fuel + 1, n, acc =>
    if n < 10 then digitChar n :: acc
    else digitsAux fuel (n / 10) (digitChar n :: acc)

/-- The decimal digits of `n` as characters (no padding). -/
def natDigits (n : Nat) : List Char := digitsAux (n + 1) n []

/-- Python `f"{n:02d}"`: decimal digits of `n` left-padded with `'0'` to
width at least two. -/
def pad2 (n : Nat) : List Char :=
  if n < 10 then '0' :: natDigits n else natDigits n

/-- Three-digit zero-padded rendering (the fractional part of
`f"{seconds:06.3f}"` in exact milliseconds). -/
def pad3 (n : Nat) : List Char :=
  if n < 10 then '0' :: '0' :: natDigits n
  else if n < 100 then '0' :: natDigits n
  else natDigits n

/-- `format_timestamp` from `src/main.py`, on a time given in exact
milliseconds: `hours = int(seconds // 3600)`, `minutes = int((seconds %
3600) // 60)`, `seconds = seconds % 60`, rendered
`f"{hours:02d}:{minutes:02d}:{seconds:06.3f}"`. -/
def format_timestamp (ms : Nat) : List Char :=
  pad2 (ms / 3600000) ++ ':' ::
    (pad2 (ms % 3600000 / 60000) ++ ':' ::
      (pad2 (ms % 60000 / 1000) ++ '.' :: pad3 (ms % 1000)))

/-- One transcript segment as returned by the inference service:
`{"start": float, "end": float, "text": str}`, times in exact
milliseconds. -/
structure Segment where
  start : Nat
  stop : Nat
  text : List Char
deriving DecidableEq

/-- The line `format_transcript` emits for one segment in timestamped
mode: `f"[{start_time} -> {end_time}] {text}\n"` with `text` stripped. -/
def segLine (seg : Segment) : List Char :=
  '[' :: format_timestamp seg.start ++
    (' ' :: '-' :: '>' :: ' ' :: format_timestamp seg.stop) ++
    (']' :: ' ' :: pyStrip seg.text) ++ ['\n']

/-- `segLine` without its trailing newline. -/
def segCore (seg : Segment) : List Char :=
  '[' :: format_timestamp seg.start ++
    (' ' :: '-' :: '>' :: ' ' :: format_timestamp seg.stop) ++
    (']' :: ' ' :: pyStrip seg.text)

/-- `format_transcript` from `src/main.py`.  Timestamped mode appends one
`segLine` per segment to an initially empty string; plain mode is
`" ".join(strip(text))` re-collapsed by `" ".join(s.split())` with a
trailing newline. -/
def format_transcript (segments : List Segment) (timestamps : Bool) : List Char :=
  if timestamps then
    segments.foldl (fun acc seg => acc ++ segLine seg) []
  else
    (spaceJoin (words (spaceJoin (segments.map (fun seg => pyStrip seg.text))))) ++ ['\n']

/-- The fixed regex of `remove_timestamps` in `src/cli.py`,
`\[\d{2}:\d{2}:\d{2}\.\d{3} -> \d{2}:\d{2}:\d{2}\.\d{3}\]`, as the list
of per-character tests of its 30 characters (`\d` on the transcript text
in question is the ASCII digit test). -/
def tsPattern : List (Char → Bool) :=
  let d := Char.isDigit
  let ch : Char → Char → Bool := fun a x => x = a
  [ch '[', d, d, ch ':', d, d, ch ':', d, d, ch '.', d, d, d,
   ch ' ', ch '-', ch '>', ch ' ',
   d, d, ch ':', d, d, ch ':', d, d, ch '.', d, d, d, ch ']']

/-- Match a list of per-character tests against a prefix of `l`,
returning the remainder on success. -/
def matchShape : List (Char → Bool) → List Char → Option (List Char)
  | [], rest => some rest
  | _ :: _, [] => none
  | p :: ps, c :: cs => if p c then matchShape ps cs else none

/-- Does the timestamp pattern match at the start of `l`?  On success,
returns what follows the 30 matched characters. -/
def matchTs (l : List Char) : Option (List Char) := matchShape tsPattern l

/-- `re.search(timestamp_pattern, line)`: does the pattern match at some
position of `l`? -/
def searchTs : List Char → Bool
  | [] => false
  | c :: cs => (matchTs (c :: cs)).isSome || searchTs cs

/-- `l` contains no occurrence of the timestamp pattern (at any
position). -/
def noMatch : List Char → Bool
  | [] => true
  | c :: cs => (matchTs (c :: cs)).isNone && noMatch cs

/-- `re.sub(timestamp_pattern, "", l)`: scan left to right, deleting
each leftmost non-overlapping match and continuing after it.
Structurally recursive on a fuel argument that is always sufficient
because a successful match consumes 30 characters. -/
def subTsAux : Nat → List Char → List Char
  | 0, l => l
  | fuel + 1, l =>
    match matchTs l with
    | some rest => subTsAux fuel rest
    | none =>
      match l with
      | [] => []
      | c :: cs => c :: subTsAux fuel cs

/-- `re.sub(timestamp_pattern, "", l)`. -/
def subTs (l : List Char) : List Char := subTsAux l.length l

/-- Diagnostic counters of `remove_timestamps` in `src/cli.py`. -/
structure StripStats where
  total_lines : Nat
  lines_with_timestamps : Nat
  lines_removed : Nat
deriving DecidableEq

/-- The line loop of `remove_timestamps` in `src/cli.py`: for each input
line, count it, test `re.search`, compute
`re.sub(timestamp_pattern, "", line).strip()`, and emit the cleaned line
only when it is non-empty (an empty cleaned line is counted as
removed). -/
def remove_timestamps : List (List Char) → List (List Char) × StripStats
  | [] => ([], ⟨0, 0, 0⟩)
  | line :: rest =>
    let withTs := searchTs line
    let clean := pyStrip (subTs line)
    let r := remove_timestamps rest
    ((if clean = [] then [] else [clean]) ++ r.1,
     ⟨r.2.total_lines + 1,
      r.2.lines_with_timestamps + (if withTs then 1 else 0),
      r.2.lines_removed + (if clean = [] then 1 else 0)⟩)

/-- File-level behaviour of the `clean` command: split the input file
into lines, run the `remove_timestamps` loop, and write each kept
cleaned line followed by a newline. -/
def remove_timestamps_file (contents : List Char) : List Char :=
  (((remove_timestamps (pyLines contents)).1).map (fun l => l ++ ['\n'])).flatten

/-- Shorthand: the character list of a string literal. -/
def chars (s : String) : List Char := s.toList

/-- Result of a Python call that either returns a value or raises an
exception carrying a message. -/
inductive PyResult (α : Type) where
  | ok (val : α)
  | exn (msg : List Char)
deriving DecidableEq

/-- Observable behaviour of one `subprocess.run(["ffmpeg", ...])`
invocation: its return code, its diagnostic stderr text, and whether the
process leaves a (possibly partial) file at the output path it was given
when it does not succeed.  On success ffmpeg produces the requested
output file; on failure the repository code does not clean up, so
whether a partial file remains is determined by the external process. -/
structure FfmpegRun where
  returncode : Nat
  stderr : List Char
  leavesFile : Bool
deriving DecidableEq

/-- `convert_opus_to_wav` from `src/main.py`.  `processedDir` is the set
of stems having a `.wav` artifact in `PROCESSED_DIR`; the returned
`Nat` counts ffmpeg invocations performed by this call.  If the artifact
exists the function returns its path at once; otherwise it runs ffmpeg,
raising `Exception(f"FFmpeg conversion failed: {result.stderr}")` on a
non-zero return code. -/
def convert_opus_to_wav (run : FfmpegRun) (processedDir : List String) (stem : String) :
    PyResult String × List String × Nat :=
  if stem ∈ processedDir then (.ok stem, processedDir, 0)
  else
    let dir' := if run.returncode = 0 || run.leavesFile then stem :: processedDir
                else processedDir
    if run.returncode = 0 then (.ok stem, dir', 1)
    else (.exn (chars "FFmpeg conversion failed: " ++ run.stderr), dir', 1)

/-- `extract_audio_from_mp4` from `src/main.py`: identical artifact
check and ffmpeg invocation, with a caller-supplied output directory
and the message `FFmpeg audio extraction failed`. -/
def extract_audio_from_mp4 (run : FfmpegRun) (outputDir : List String) (stem : String) :
    PyResult String × List String × Nat :=
  if stem ∈ outputDir then (.ok stem, outputDir, 0)
  else
    let dir' := if run.returncode = 0 || run.leavesFile then stem :: outputDir
                else outputDir
    if run.returncode = 0 then (.ok stem, dir', 1)
    else (.exn (chars "FFmpeg audio extraction failed: " ++ run.stderr), dir', 1)

/-- Observable behaviour of one whisper inference
(`whisper.load_model(model_str)` followed by `model.transcribe(...)`):
either it succeeds with a list of segments or it raises with a
message. -/
structure WhisperRun where
  ok : Bool
  segments : List Segment
  errMsg : List Char
deriving DecidableEq

/-- `transcribe_audio` from `src/main.py`.  `transcribedDir` maps stems
to the contents of existing `TRANSCRIBED_DIR/<stem>.txt` artifacts.  If
the artifact exists its contents are returned verbatim with no
inference; otherwise the external inference service is invoked (the
returned call list records the `(model_str, stem)` of each invocation),
the segments are formatted, and the result is persisted and returned.
The `model_str` argument is not validated anywhere in the source: it is
passed straight to `whisper.load_model`. -/
def transcribe_audio (run : WhisperRun) (transcribedDir : List (String × List Char))
    (stem : String) (model_str : String) (timestamps : Bool) :
    PyResult (List Char) × List (String × List Char) × List (String × String) :=
  match transcribedDir.lookup stem with
  | some content => (.ok content, transcribedDir, [])
  | none =>
    if run.ok then
      let t := format_transcript run.segments timestamps
      (.ok t, (stem, t) :: transcribedDir, [(model_str, stem)])
    else
      (.exn run.errMsg, transcribedDir, [(model_str, stem)])

/-- Aggregate counters reported by the batch commands of `src/cli.py`. -/
structure BatchCounters where
  processed : Nat
  skipped : Nat
  failed : Nat
deriving DecidableEq

/-- Filesystem state seen by the `transcribe` command of `src/cli.py`:
the caller-supplied output directory and the fixed `TRANSCRIBED_DIR`
that `transcribe_audio` consults, both mapping stems to transcript
contents. -/
structure TranscribeState where
  outputDir : List (String × List Char)
  transcribedDir : List (String × List Char)
deriving DecidableEq

/-- The per-file loop of the `transcribe` command in `src/cli.py`, over
the `.wav` stems in the order the directory listing (`glob`) returned
them.  Per stem: if `<output_dir>/<stem>.txt` exists the file is
skipped; otherwise `transcribe_audio` is called (with the external
behaviour `runs stem`) and on success its text is also written to the
output directory; an exception is counted as failed and the loop
continues.  Returns the final state, the counters, the stems in the
order they were handled, and all inference invocations performed. -/
def transcribe (runs : String → WhisperRun) (wavFiles : List String)
    (model : String) (timestamps : Bool) (st : TranscribeState) :
    TranscribeState × BatchCounters × List String × List (String × String) :=
  match wavFiles with
  | [] => (st, ⟨0, 0, 0⟩, [], [])
  | w :: rest =>
    if (st.outputDir.lookup w).isSome then
      let r := transcribe runs rest model timestamps st
      (r.1, ⟨r.2.1.processed, r.2.1.skipped + 1, r.2.1.failed⟩, w :: r.2.2.1, r.2.2.2)
    else
      let t := transcribe_audio (runs w) st.transcribedDir w model timestamps
      match t.1 with
      | .ok txt =>
        let r := transcribe runs rest model timestamps ⟨(w, txt) :: st.outputDir, t.2.1⟩
        (r.1, ⟨r.2.1.processed + 1, r.2.1.skipped, r.2.1.failed⟩, w :: r.2.2.1,
         t.2.2 ++ r.2.2.2)
      | .exn _ =>
        let r := transcribe runs rest model timestamps ⟨st.outputDir, t.2.1⟩
        (r.1, ⟨r.2.1.processed, r.2.1.skipped, r.2.1.failed + 1⟩, w :: r.2.2.1,
         t.2.2 ++ r.2.2.2)

/-! ### Lemmas about chunk splitting and `words` -/

theorem chunksBy_ne_nil (p : Char → Bool) (l : List Char) : chunksBy p l ≠ [] := by
  cases l with
  | nil => simp [chunksBy]
  | cons c cs =>
    by_cases h : p c = true
    · simp [chunksBy, h]
    · rw [chunksBy, if_neg h]
      cases chunksBy p cs <;> simp [consHead]

theorem chunksBy_append_sep (p : Char → Bool) {c : Char} (hc : p c = true) :
    ∀ (a b : List Char), chunksBy p (a ++ c :: b) = chunksBy p a ++ chunksBy p b := by
  intro a
  induction a with
  | nil => intro b; simp [chunksBy, hc]
  | cons d a' ih =>
    intro b
    by_cases hd : p d = true
    · simp [chunksBy, hd, ih]
    · rw [List.cons_append, chunksBy, if_neg hd, ih, chunksBy, if_neg hd]
      cases h : chunksBy p a' with
      | nil => exact absurd h (chunksBy_ne_nil p a')
      | cons w ws => simp [consHead]

theorem chunksBy_head_pre (p : Char → Bool) :
    ∀ (l : List Char) (w : List Char) (ws : List (List Char)),
      chunksBy p l = w :: ws → ∃ rest, l = w ++ rest := by
  intro l
  induction l with
  | nil =>
    intro w ws h
    simp [chunksBy] at h
    exact ⟨[], by simp [h.1.symm]⟩
  | cons c cs ih =>
    intro w ws h
    by_cases hc : p c = true
    · simp [chunksBy, hc] at h
      exact ⟨c :: cs, by simp [h.1.symm]⟩
    · simp only [chunksBy, hc, Bool.false_eq_true, if_false] at h
      cases h' : chunksBy p cs with
      | nil => exact absurd h' (chunksBy_ne_nil p cs)
      | cons w' ws' =>
        rw [h', consHead] at h
        obtain ⟨rest, hrest⟩ := ih w' ws' h'
        refine ⟨rest, ?_⟩
        rw [List.cons_eq_cons] at h
        rw [← h.1, hrest]
        simp

theorem chunksBy_infix (p : Char → Bool) :
    ∀ (l : List Char) (w : List Char), w ∈ chunksBy p l →
      ∃ a b, l = a ++ w ++ b := by
  intro l
  induction l with
  | nil =>
    intro w hw
    simp [chunksBy] at hw
    exact ⟨[], [], by simp [hw]⟩
  | cons c cs ih =>
    intro w hw
    by_cases hc : p c = true
    · simp only [chunksBy, hc, if_true, List.mem_cons] at hw
      rcases hw with hw | hw
      · exact ⟨[], c :: cs, by simp [hw]⟩
      · obtain ⟨a, b, hab⟩ := ih w hw
        exact ⟨c :: a, b, by simp [hab]⟩
    · simp only [chunksBy, hc, Bool.false_eq_true, if_false] at hw
      cases h' : chunksBy p cs with
      | nil => exact absurd h' (chunksBy_ne_nil p cs)
      | cons w' ws' =>
        rw [h', consHead, List.mem_cons] at hw
        rcases hw with hw | hw
        · obtain ⟨rest, hrest⟩ := chunksBy_head_pre p cs w' ws' h'
          exact ⟨[], rest, by simp [hw, hrest]⟩
        · obtain ⟨a, b, hab⟩ := ih w (by rw [h']; exact List.mem_cons_of_mem _ hw)
          exact ⟨c :: a, b, by simp [hab]⟩

theorem chunksBy_mem_nosep (p : Char → Bool) :
    ∀ (l : List Char) (w : List Char), w ∈ chunksBy p l →
      ∀ c ∈ w, p c = false := by
  intro l
  induction l with
  | nil =>
    intro w hw c hc
    simp [chunksBy] at hw
    subst hw
    simp at hc
  | cons d cs ih =>
    intro w hw c hc
    by_cases hd : p d = true
    · simp only [chunksBy, hd, if_true, List.mem_cons] at hw
      rcases hw with hw | hw
      · subst hw; simp at hc
      · exact ih w hw c hc
    · simp only [chunksBy, hd, Bool.false_eq_true, if_false] at hw
      cases h' : chunksBy p cs with
      | nil => exact absurd h' (chunksBy_ne_nil p cs)
      | cons w' ws' =>
        rw [h', consHead, List.mem_cons] at hw
        rcases hw with hw | hw
        · subst hw
          rcases List.mem_cons.mp hc with rfl | hc'
          · simpa using hd
          · exact ih w' (by rw [h']; exact List.mem_cons_self _ _) c hc'
        · exact ih w (by rw [h']; exact List.mem_cons_of_mem _ hw) c hc

theorem chunksBy_nosep (p : Char → Bool) :
    ∀ (l : List Char), (∀ c ∈ l, p c = false) → chunksBy p l = [l] := by
  intro l
  induction l with
  | nil => intro _; simp [chunksBy]
  | cons c cs ih =>
    intro h
    have hc : p c = false := h c (List.mem_cons_self _ _)
    have := ih (fun d hd => h d (List.mem_cons_of_mem _ hd))
    simp [chunksBy, hc, this, consHead]

theorem chunksBy_append_nosep (p : Char → Bool) :
    ∀ (a l : List Char) (w : List Char) (ws : List (List Char)),
      (∀ c ∈ a, p c = false) → chunksBy p l = w :: ws →
      chunksBy p (a ++ l) = (a ++ w) :: ws := by
  intro a
  induction a with
  | nil => intro l w ws _ h; simpa using h
  | cons c a' ih =>
    intro l w ws h hl
    have hc : p c = false := h c (List.mem_cons_self _ _)
    have := ih l w ws (fun d hd => h d (List.mem_cons_of_mem _ hd)) hl
    simp [chunksBy, hc, this, consHead]

theorem joinSep_cons (sep : Char) (w : List Char) (ws : List (List Char)) :
    joinSep sep (w :: ws) = w ++ (if ws = [] then [] else sep :: joinSep sep ws) := by
  cases ws <;> simp [joinSep]

theorem splitNl_recombine (l : List Char) : joinSep '\n' (splitNl l) = l := by
  induction l with
  | nil => simp [splitNl, chunksBy, joinSep]
  | cons c cs ih =>
    by_cases hc : c = '\n'
    · subst hc
      rw [splitNl, chunksBy, if_pos (by simp)]
      cases h : chunksBy (fun c => c = '\n') cs with
      | nil => exact absurd h (chunksBy_ne_nil _ cs)
      | cons w ws =>
        rw [joinSep_cons, if_neg (by simp)]
        rw [splitNl, h] at ih
        simp [ih]
    · rw [splitNl, chunksBy, if_neg (by simp [hc])]
      cases h : chunksBy (fun c => c = '\n') cs with
      | nil => exact absurd h (chunksBy_ne_nil _ cs)
      | cons w ws =>
        rw [consHead, joinSep_cons]
        rw [splitNl, h, joinSep_cons] at ih
        simpa using ih

theorem words_nil : words [] = [] := by simp [words, chunksBy]

theorem words_cons_space {c : Char} (hc : isSpace c = true) (l : List Char) :
    words (c :: l) = words l := by
  simp [words, chunksBy, hc]

theorem words_append_ws {c : Char} (hc : isSpace c = true) (a b : List Char) :
    words (a ++ c :: b) = words a ++ words b := by
  simp [words, chunksBy_append_sep isSpace hc, List.filter_append]

theorem words_all_space : ∀ (l : List Char), (∀ c ∈ l, isSpace c = true) → words l = [] := by
  intro l
  induction l with
  | nil => intro _; exact words_nil
  | cons c cs ih =>
    intro h
    rw [words_cons_space (h c (List.mem_cons_self _ _))]
    exact ih (fun d hd => h d (List.mem_cons_of_mem _ hd))

theorem words_nosep (l : List Char) (h : ∀ c ∈ l, isSpace c = false) (hne : l ≠ []) :
    words l = [l] := by
  simp [words, chunksBy_nosep _ _ h, hne]

theorem words_mem (l w : List Char) (hw : w ∈ words l) :
    w ≠ [] ∧ ∀ c ∈ w, isSpace c = false := by
  rw [words, List.mem_filter] at hw
  refine ⟨by simpa using hw.2, fun c hc => chunksBy_mem_nosep isSpace l w hw.1 c hc⟩

theorem words_joinSep (sep : Char) (hsep : isSpace sep = true) :
    ∀ (ws : List (List Char)), words (joinSep sep ws) = (ws.map words).flatten := by
  intro ws
  induction ws with
  | nil => simpa using words_nil
  | cons w ws ih =>
    cases ws with
    | nil => simp [joinSep]
    | cons x xs =>
      rw [joinSep_cons, if_neg (by simp), words_append_ws hsep, ih]
      simp

theorem words_splitNl_flatten (l : List Char) :
    ((splitNl l).map words).flatten = words l := by
  rw [← words_joinSep '\n' (by decide) (splitNl l), splitNl_recombine]

theorem words_dropWhile_space (l : List Char) :
    words (l.dropWhile isSpace) = words l := by
  induction l with
  | nil => rfl
  | cons c cs ih =>
    cases hc : isSpace c with
    | true => rw [List.dropWhile_cons_of_pos (by simp [hc]), ih, words_cons_space hc]
    | false => rw [List.dropWhile_cons_of_neg (by simp [hc])]

theorem words_append_spaces (l : List Char) :
    ∀ (t : List Char), (∀ c ∈ t, isSpace c = true) → words (l ++ t) = words l := by
  intro t
  induction t generalizing l with
  | nil => intro _; simp
  | cons c t' ih =>
    intro h
    rw [words_append_ws (h c (List.mem_cons_self _ _)),
        words_all_space t' (fun d hd => h d (List.mem_cons_of_mem _ hd)), List.append_nil]

theorem words_pyStrip (l : List Char) : words (pyStrip l) = words l := by
  have key : l.dropWhile isSpace =
      pyStrip l ++ ((l.dropWhile isSpace).reverse.takeWhile isSpace).reverse := by
    conv_lhs => rw [← List.reverse_reverse (l.dropWhile isSpace),
      ← List.takeWhile_append_dropWhile isSpace (l.dropWhile isSpace).reverse]
    rw [List.reverse_append, pyStrip]
  have htrail : ∀ c ∈ ((l.dropWhile isSpace).reverse.takeWhile isSpace).reverse,
      isSpace c = true := by
    intro c hc
    exact List.mem_takeWhile_imp (List.mem_reverse.mp hc)
  calc words (pyStrip l) = words (pyStrip l ++ _) := (words_append_spaces _ _ htrail).symm
    _ = words (l.dropWhile isSpace) := by rw [← key]
    _ = words l := words_dropWhile_space l

theorem flatten_map_words_self (ws : List (List Char))
    (h : ∀ w ∈ ws, w ≠ [] ∧ ∀ c ∈ w, isSpace c = false) :
    (ws.map words).flatten = ws := by
  induction ws with
  | nil => rfl
  | cons w ws ih =>
    have hw := h w (List.mem_cons_self _ _)
    rw [List.map_cons, List.flatten_cons, words_nosep w hw.2 hw.1,
        ih (fun x hx => h x (List.mem_cons_of_mem _ hx))]
    rfl

theorem words_spaceJoin_words (l : List Char) : words (spaceJoin (words l)) = words l := by
  rw [spaceJoin, words_joinSep ' ' (by decide)]
  exact flatten_map_words_self _ (fun w hw => words_mem l w hw)

/-! ### Lemmas about the timestamp pattern and `subTs` -/

theorem matchShape_append :
    ∀ (ps : List (Char → Bool)) (l q r : List Char),
      matchShape ps l = some r → matchShape ps (l ++ q) = some (r ++ q) := by
  intro ps
  induction ps with
  | nil =>
    intro l q r h
    simp [matchShape] at h
    simp [matchShape, h]
  | cons p ps ih =>
    intro l q r h
    cases l with
    | nil => simp [matchShape] at h
    | cons c cs =>
      rw [matchShape] at h
      by_cases hp : p c = true
      · rw [if_pos hp] at h
        rw [List.cons_append, matchShape, if_pos hp]
        exact ih cs q r h
      · rw [if_neg hp] at h
        exact absurd h (by simp)

theorem matchShape_length :
    ∀ (ps : List (Char → Bool)) (l r : List Char),
      matchShape ps l = some r → r.length + ps.length = l.length := by
  intro ps
  induction ps with
  | nil =>
    intro l r h
    simp [matchShape] at h
    simp [h]
  | cons p ps ih =>
    intro l r h
    cases l with
    | nil => simp [matchShape] at h
    | cons c cs =>
      rw [matchShape] at h
      by_cases hp : p c = true
      · rw [if_pos hp] at h
        have := ih cs r h
        simp only [List.length_cons]
        omega
      · rw [if_neg hp] at h
        exact absurd h (by simp)

theorem matchTs_some_length {l r : List Char} (h : matchTs l = some r) :
    r.length + 30 = l.length := by
  have := matchShape_length tsPattern l r h
  simpa [tsPattern] using this

theorem noMatch_cons_elim {c : Char} {cs : List Char} (h : noMatch (c :: cs) = true) :
    matchTs (c :: cs) = none ∧ noMatch cs = true := by
  rw [noMatch, Bool.and_eq_true, Option.isNone_iff_eq_none] at h
  exact h

theorem noMatch_append_left :
    ∀ (a b : List Char), noMatch (a ++ b) = true → noMatch a = true := by
  intro a
  induction a with
  | nil => intro b _; rfl
  | cons c a' ih =>
    intro b h
    rw [List.cons_append] at h
    obtain ⟨h1, h2⟩ := noMatch_cons_elim h
    rw [noMatch, Bool.and_eq_true, Option.isNone_iff_eq_none]
    constructor
    · cases hm : matchTs (c :: a') with
      | none => rfl
      | some r =>
        have hext : matchShape tsPattern ((c :: a') ++ b) = some (r ++ b) :=
          matchShape_append tsPattern (c :: a') b r hm
        have h1' : matchShape tsPattern (c :: (a' ++ b)) = none := h1
        rw [List.cons_append] at hext
        rw [hext] at h1'
        exact absurd h1' (by simp)
    · exact ih b h2

theorem noMatch_append_right :
    ∀ (a b : List Char), noMatch (a ++ b) = true → noMatch b = true := by
  intro a
  induction a with
  | nil => intro b h; exact h
  | cons c a' ih =>
    intro b h
    rw [List.cons_append] at h
    exact ih b (noMatch_cons_elim h).2

theorem noMatch_infix {l a w b : List Char} (hl : l = a ++ w ++ b)
    (h : noMatch l = true) : noMatch w = true := by
  subst hl
  rw [List.append_assoc] at h
  have := noMatch_append_right a (w ++ b) h
  exact noMatch_append_left w b this

theorem matchTs_nil : matchTs [] = none := by decide

theorem subTsAux_nil : ∀ (fuel : Nat), subTsAux fuel [] = [] := by
  intro fuel
  cases fuel with
  | zero => rfl
  | succ f => simp [subTsAux, matchTs_nil]

theorem subTsAux_congr :
    ∀ (f1 : Nat) (l : List Char) (f2 : Nat), l.length ≤ f1 → l.length ≤ f2 →
      subTsAux f1 l = subTsAux f2 l := by
  intro f1
  induction f1 with
  | zero =>
    intro l f2 h1 _
    have : l = [] := List.length_eq_zero.mp (Nat.le_zero.mp h1)
    subst this
    rw [subTsAux_nil, subTsAux_nil]
  | succ f ih =>
    intro l f2 h1 h2
    cases l with
    | nil => rw [subTsAux_nil, subTsAux_nil]
    | cons c cs =>
      cases f2 with
      | zero => simp at h2
      | succ f2' =>
        rw [subTsAux, subTsAux]
        cases hm : matchTs (c :: cs) with
        | some rest =>
          have hlen := matchTs_some_length hm
          simp only [List.length_cons] at h1 h2 hlen
          exact ih rest f2' (by omega) (by omega)
        | none =>
          simp only [List.length_cons] at h1 h2
          rw [ih cs f2' (by omega) (by omega)]

theorem subTsAux_succ (f : Nat) (l : List Char) :
    subTsAux (f + 1) l =
      match matchTs l with
      | some rest => subTsAux f rest
      | none =>
        match l with
        | [] => []
        | c :: cs => c :: subTsAux f cs := rfl

theorem subTs_eq_of_match {l rest : List Char} (h : matchTs l = some rest) :
    subTs l = subTs rest := by
  have hlen := matchTs_some_length h
  rw [subTs, subTs]
  have h30 : l.length = (rest.length + 29) + 1 := by omega
  rw [h30, subTsAux_succ, h]
  exact subTsAux_congr _ rest _ (by omega) (by omega)

theorem subTs_cons_of_none {c : Char} {cs : List Char} (h : matchTs (c :: cs) = none) :
    subTs (c :: cs) = c :: subTs cs := by
  rw [subTs, subTs, List.length_cons, subTsAux_succ, h]

theorem subTs_nil : subTs [] = [] := rfl

theorem subTs_of_noMatch : ∀ (l : List Char), noMatch l = true → subTs l = l := by
  intro l
  induction l with
  | nil => intro _; rfl
  | cons c cs ih =>
    intro h
    obtain ⟨h1, h2⟩ := noMatch_cons_elim h
    rw [subTs_cons_of_none h1, ih h2]

/-! ### Lemmas about digit rendering and `format_timestamp` -/

theorem digit_aux_bound : ∀ m, m < 10 → (Char.ofNat (48 + m)).isDigit = true := by decide

theorem isDigit_digitChar (n : Nat) : (digitChar n).isDigit = true :=
  digit_aux_bound (n % 10) (Nat.mod_lt _ (by norm_num))

theorem digit_aux_ne_nl : ∀ m, m < 10 → Char.ofNat (48 + m) ≠ '\n' := by decide

theorem digitChar_ne_nl (n : Nat) : digitChar n ≠ '\n' :=
  digit_aux_ne_nl (n % 10) (Nat.mod_lt _ (by norm_num))

theorem natDigits_lt10 {n : Nat} (h : n < 10) : natDigits n = [digitChar n] := by
  simp [natDigits, digitsAux, h]

theorem natDigits_two {n : Nat} (h1 : 10 ≤ n) (h2 : n < 100) :
    natDigits n = [digitChar (n / 10), digitChar n] := by
  obtain ⟨m, rfl⟩ : ∃ m, n = m + 1 := ⟨n - 1, by omega⟩
  rw [natDigits, digitsAux, if_neg (by omega), digitsAux,
      if_pos (by omega)]

theorem natDigits_three {n : Nat} (h1 : 100 ≤ n) (h2 : n < 1000) :
    natDigits n = [digitChar (n / 100), digitChar (n / 10), digitChar n] := by
  obtain ⟨m, rfl⟩ : ∃ m, n = m + 1 := ⟨n - 1, by omega⟩
  obtain ⟨k, hk⟩ : ∃ k, m = k + 1 := ⟨m - 1, by omega⟩
  rw [natDigits, digitsAux, if_neg (by omega), hk, digitsAux,
      if_neg (by omega), Nat.div_div_eq_div_mul, digitsAux,
      if_pos (by omega)]

theorem pad2_eq {n : Nat} (h : n < 100) : pad2 n = [digitChar (n / 10), digitChar n] := by
  by_cases h10 : n < 10
  · rw [pad2, if_pos h10, natDigits_lt10 h10, Nat.div_eq_of_lt h10]
    rfl
  · rw [pad2, if_neg h10, natDigits_two (by omega) h]

theorem pad3_eq {n : Nat} (h : n < 1000) :
    pad3 n = [digitChar (n / 100), digitChar (n / 10), digitChar n] := by
  by_cases h10 : n < 10
  · rw [pad3, if_pos h10, natDigits_lt10 h10, Nat.div_eq_of_lt (by omega),
        Nat.div_eq_of_lt h10]
    rfl
  · by_cases h100 : n < 100
    · have h0 : n / 100 = 0 := Nat.div_eq_of_lt h100
      have hd0 : digitChar 0 = '0' := by decide
      rw [pad3, if_neg h10, if_pos h100, natDigits_two (by omega) h100, h0, hd0]
    · rw [pad3, if_neg h10, if_neg h100, natDigits_three (by omega) h]

theorem format_timestamp_eq {ms : Nat} (h : ms < 360000000) :
    format_timestamp ms =
      digitChar (ms / 3600000 / 10) :: digitChar (ms / 3600000) :: ':' ::
      digitChar (ms % 3600000 / 60000 / 10) :: digitChar (ms % 3600000 / 60000) :: ':' ::
      digitChar (ms % 60000 / 1000 / 10) :: digitChar (ms % 60000 / 1000) :: '.' ::
      digitChar (ms % 1000 / 100) :: digitChar (ms % 1000 / 10) :: digitChar (ms % 1000) :: [] := by
  have hh : ms / 3600000 < 100 := by omega
  have hm : ms % 3600000 / 60000 < 100 := by
    have := @Nat.mod_lt ms 3600000 (by norm_num)
    omega
  have hs : ms % 60000 / 1000 < 100 := by
    have := @Nat.mod_lt ms 60000 (by norm_num)
    omega
  have hms : ms % 1000 < 1000 := Nat.mod_lt ms (by norm_num)
  rw [format_timestamp, pad2_eq hh, pad2_eq hm, pad2_eq hs, pad3_eq hms]
  rfl

theorem matchTs_bracket {a b : Nat} (ha : a < 360000000) (hb : b < 360000000)
    (rest : List Char) :
    matchTs ('[' :: format_timestamp a ++
      (' ' :: '-' :: '>' :: ' ' :: format_timestamp b) ++ (']' :: rest)) = some rest := by
  rw [format_timestamp_eq ha, format_timestamp_eq hb]
  simp [matchTs, matchShape, tsPattern, isDigit_digitChar]

/-! ### Structure of the formatted transcript and the stripped file -/

theorem segLine_eq (seg : Segment) : segLine seg = segCore seg ++ ['\n'] := by
  simp [segLine, segCore]

theorem format_transcript_true (segs : List Segment) :
    format_transcript segs true = (segs.map segLine).flatten := by
  rw [format_transcript, if_pos rfl]
  suffices h : ∀ (ss : List Segment) (acc : List Char),
      ss.foldl (fun acc seg => acc ++ segLine seg) acc = acc ++ (ss.map segLine).flatten by
    simpa using h segs []
  intro ss
  induction ss with
  | nil => intro acc; simp
  | cons s ss ih => intro acc; simp [ih]

theorem splitNl_flatten_nl (cores : List (List Char)) :
    splitNl ((cores.map (fun w => w ++ ['\n'])).flatten) =
      (cores.map splitNl).flatten ++ [[]] := by
  induction cores with
  | nil => simp [splitNl, chunksBy]
  | cons w ws ih =>
    have : (w ++ ['\n']) ++ ((ws.map (fun w => w ++ ['\n'])).flatten) =
        w ++ '\n' :: ((ws.map (fun w => w ++ ['\n'])).flatten) := by simp
    rw [List.map_cons, List.flatten_cons, this, splitNl,
        chunksBy_append_sep _ (by simp) w _]
    rw [splitNl] at ih
    simp [ih, splitNl]

theorem pyLines_flatten (cores : List (List Char)) :
    pyLines ((cores.map (fun w => w ++ ['\n'])).flatten) =
      (cores.map splitNl).flatten := by
  rw [pyLines, splitNl_flatten_nl]
  rw [List.getLast?_concat]
  simp [List.dropLast_concat]

theorem remove_timestamps_fst (lines : List (List Char)) :
    (remove_timestamps lines).1 =
      (lines.map (fun l => pyStrip (subTs l))).filter (fun l => l ≠ []) := by
  induction lines with
  | nil => rfl
  | cons line rest ih =>
    rw [remove_timestamps]
    by_cases h : pyStrip (subTs line) = []
    · simp [h, ih]
    · simp [h, ih]

theorem words_flatten_nl (ls : List (List Char)) :
    words ((ls.map (fun w => w ++ ['\n'])).flatten) = (ls.map words).flatten := by
  induction ls with
  | nil => simpa using words_nil
  | cons l ls ih =>
    have : (l ++ ['\n']) ++ ((ls.map (fun w => w ++ ['\n'])).flatten) =
        l ++ '\n' :: ((ls.map (fun w => w ++ ['\n'])).flatten) := by simp
    rw [List.map_cons, List.flatten_cons, this, words_append_ws (by decide), ih]
    simp

theorem flatten_words_filter (xs : List (List Char)) :
    (((xs.filter (fun l => l ≠ [])).map words).flatten) = ((xs.map words).flatten) := by
  induction xs with
  | nil => rfl
  | cons x xs ih =>
    by_cases h : x = []
    · subst h
      simpa [words_nil] using ih
    · simp [h]
      simpa using ih

theorem words_remove_timestamps_file (contents : List Char) :
    words (remove_timestamps_file contents) =
      ((pyLines contents).map (fun l => words (subTs l))).flatten := by
  rw [remove_timestamps_file, words_flatten_nl, remove_timestamps_fst,
      flatten_words_filter, List.map_map]
  congr 1
  refine List.map_congr_left (fun l _ => ?_)
  simp [words_pyStrip]

theorem pyStrip_decomp (l : List Char) :
    l.dropWhile isSpace =
      pyStrip l ++ ((l.dropWhile isSpace).reverse.takeWhile isSpace).reverse := by
  conv_lhs => rw [← List.reverse_reverse (l.dropWhile isSpace),
    ← List.takeWhile_append_dropWhile isSpace (l.dropWhile isSpace).reverse]
  rw [List.reverse_append, pyStrip]

theorem noMatch_pyStrip {l : List Char} (h : noMatch l = true) :
    noMatch (pyStrip l) = true := by
  have h1 : noMatch (l.dropWhile isSpace) = true := by
    have heq : l = l.takeWhile isSpace ++ l.dropWhile isSpace :=
      (List.takeWhile_append_dropWhile isSpace l).symm
    exact noMatch_append_right _ _ (heq ▸ h)
  rw [pyStrip_decomp l] at h1
  exact noMatch_append_left _ _ h1

theorem noMatch_splitNl {l w : List Char} (h : noMatch l = true)
    (hw : w ∈ splitNl l) : noMatch w = true := by
  obtain ⟨a, b, hab⟩ := chunksBy_infix _ l w hw
  exact noMatch_infix hab h

theorem matchTs_cons_notbracket {c : Char} (hc : c ≠ '[') (cs : List Char) :
    matchTs (c :: cs) = none := by
  simp [matchTs, tsPattern, matchShape, hc]

theorem format_timestamp_mem_ne_nl {ms : Nat} (h : ms < 360000000) :
    ∀ c ∈ format_timestamp ms, c ≠ '\n' := by
  rw [format_timestamp_eq h]
  intro c hc
  simp only [List.mem_cons, List.not_mem_nil, or_false] at hc
  rcases hc with rfl | rfl | rfl | rfl | rfl | rfl | rfl | rfl | rfl | rfl | rfl | rfl <;>
    first
      | exact digitChar_ne_nl _
      | decide

theorem words_subTs_segCore (seg : Segment) (ha : seg.start < 360000000)
    (hb : seg.stop < 360000000) (hnm : noMatch seg.text = true) :
    ((splitNl (segCore seg)).map (fun l => words (subTs l))).flatten = words seg.text := by
  obtain ⟨w0, ws, hsplit⟩ : ∃ w0 ws, splitNl (pyStrip seg.text) = w0 :: ws := by
    cases h : splitNl (pyStrip seg.text) with
    | nil => exact absurd h (chunksBy_ne_nil _ _)
    | cons w0 ws => exact ⟨w0, ws, rfl⟩
  have hnms : noMatch (pyStrip seg.text) = true := noMatch_pyStrip hnm
  have hw0 : noMatch w0 = true :=
    noMatch_splitNl hnms (hsplit ▸ List.mem_cons_self _ _)
  have hws : ∀ w ∈ ws, noMatch w = true := fun w hw =>
    noMatch_splitNl hnms (hsplit ▸ List.mem_cons_of_mem _ hw)
  have hpre : ∀ c ∈ ('[' :: format_timestamp seg.start ++
      (' ' :: '-' :: '>' :: ' ' :: format_timestamp seg.stop) ++ (']' :: [' '])),
      (fun c => decide (c = '\n')) c = false := by
    have h1 : ∀ c ∈ ('[' :: format_timestamp seg.start), c ≠ '\n' :=
      List.forall_mem_cons.mpr ⟨by decide, format_timestamp_mem_ne_nl ha⟩
    have h2 : ∀ c ∈ (' ' :: '-' :: '>' :: ' ' :: format_timestamp seg.stop), c ≠ '\n' :=
      List.forall_mem_cons.mpr ⟨by decide, List.forall_mem_cons.mpr ⟨by decide,
        List.forall_mem_cons.mpr ⟨by decide, List.forall_mem_cons.mpr ⟨by decide,
          format_timestamp_mem_ne_nl hb⟩⟩⟩⟩
    have h3 : ∀ c ∈ (']' :: [' ']), c ≠ '\n' := by decide
    have hne : ∀ c ∈ ('[' :: format_timestamp seg.start ++
        (' ' :: '-' :: '>' :: ' ' :: format_timestamp seg.stop) ++ (']' :: [' '])), c ≠ '\n' :=
      List.forall_mem_append.mpr ⟨List.forall_mem_append.mpr ⟨h1, h2⟩, h3⟩
    intro c hc
    simpa using hne c hc
  have hcore : segCore seg = ('[' :: format_timestamp seg.start ++
      (' ' :: '-' :: '>' :: ' ' :: format_timestamp seg.stop) ++ (']' :: [' '])) ++
      pyStrip seg.text := by
    simp [segCore]
  have hsplitCore : splitNl (segCore seg) =
      (('[' :: format_timestamp seg.start ++
        (' ' :: '-' :: '>' :: ' ' :: format_timestamp seg.stop) ++ (']' :: [' '])) ++ w0) ::
        ws := by
    rw [hcore, splitNl]
    exact chunksBy_append_nosep _ _ _ _ _ hpre hsplit
  have hmatch : matchTs (('[' :: format_timestamp seg.start ++
      (' ' :: '-' :: '>' :: ' ' :: format_timestamp seg.stop) ++ (']' :: [' '])) ++ w0) =
      some (' ' :: w0) := by
    have hassoc : (('[' :: format_timestamp seg.start ++
        (' ' :: '-' :: '>' :: ' ' :: format_timestamp seg.stop) ++ (']' :: [' '])) ++ w0) =
        '[' :: format_timestamp seg.start ++
          (' ' :: '-' :: '>' :: ' ' :: format_timestamp seg.stop) ++ (']' :: ' ' :: w0) := by
      simp
    rw [hassoc]
    exact matchTs_bracket ha hb (' ' :: w0)
  have h1 : subTs (('[' :: format_timestamp seg.start ++
      (' ' :: '-' :: '>' :: ' ' :: format_timestamp seg.stop) ++ (']' :: [' '])) ++ w0) =
      ' ' :: w0 := by
    rw [subTs_eq_of_match hmatch,
        subTs_cons_of_none (matchTs_cons_notbracket (by decide) w0),
        subTs_of_noMatch w0 hw0]
  rw [hsplitCore, List.map_cons, List.flatten_cons, h1,
      words_cons_space (by decide)]
  have h2 : ws.map (fun l => words (subTs l)) = ws.map words :=
    List.map_congr_left (fun w hw => by rw [subTs_of_noMatch w (hws w hw)])
  rw [h2]
  have h3 : words w0 ++ (ws.map words).flatten = ((w0 :: ws).map words).flatten := by simp
  rw [h3, ← hsplit, words_splitNl_flatten, words_pyStrip]

theorem flatten_map_regroup {α β γ : Type} (xs : List α) (g : α → List β) (f : β → List γ) :
    (((xs.map g).flatten).map f).flatten =
      (xs.map (fun x => ((g x).map f).flatten)).flatten := by
  induction xs with
  | nil => rfl
  | cons x xs ih =>
    rw [List.map_cons, List.flatten_cons, List.map_append, List.flatten_append, ih,
        List.map_cons, List.flatten_cons]

theorem words_format_plain (segs : List Segment) :
    words (format_transcript segs false) = (segs.map (fun s => words s.text)).flatten := by
  rw [format_transcript, if_neg (by simp), words_append_spaces _ ['\n'] (by decide),
      words_spaceJoin_words, spaceJoin, words_joinSep ' ' (by decide), List.map_map]
  congr 1
  exact List.map_congr_left (fun s _ => by simp [words_pyStrip])

theorem words_strip_format (segs : List Segment)
    (h : ∀ s ∈ segs, s.start < 360000000 ∧ s.stop < 360000000 ∧ noMatch s.text = true) :
    words (remove_timestamps_file (format_transcript segs true)) =
      (segs.map (fun s => words s.text)).flatten := by
  rw [words_remove_timestamps_file, format_transcript_true]
  have hmap : segs.map segLine = (segs.map segCore).map (fun w => w ++ ['\n']) := by
    rw [List.map_map]
    exact List.map_congr_left (fun s _ => segLine_eq s)
  rw [hmap, pyLines_flatten, flatten_map_regroup, List.map_map]
  congr 1
  refine List.map_congr_left (fun s hs => ?_)
  have := words_subTs_segCore s (h s hs).1 (h s hs).2.1 (h s hs).2.2
  simpa using this

theorem transcribe_counters_sum (runs : String → WhisperRun) :
    ∀ (files : List String) (model : String) (ts : Bool) (st : TranscribeState),
      (transcribe runs files model ts st).2.1.processed +
        (transcribe runs files model ts st).2.1.skipped +
        (transcribe runs files model ts st).2.1.failed = files.length := by
  intro files
  induction files with
  | nil => intro model ts st; rfl
  | cons w rest ih =>
    intro model ts st
    rw [transcribe]
    dsimp only
    split
    · dsimp only
      have := ih model ts st
      simp only [List.length_cons]
      omega
    · split
      · rename_i txt heq
        dsimp only
        have := ih model ts ⟨(w, txt) :: st.outputDir,
          (transcribe_audio (runs w) st.transcribedDir w model ts).2.1⟩
        simp only [List.length_cons]
        omega
      · rename_i msg heq
        dsimp only
        have := ih model ts ⟨st.outputDir,
          (transcribe_audio (runs w) st.transcribedDir w model ts).2.1⟩
        simp only [List.length_cons]
        omega

/-! ### Claim theorems -/

/-- Claim C1, corrected.  For every non-empty list of segments whose text
fields are non-empty, contain no substring matching the timestamp
bracket pattern, and whose start and end times are below 100 hours,
stripping the timestamped rendering yields the same text as the plain
rendering up to whitespace normalization.  (As literally stated the
claim is false: see the counterexample theorem, where a segment text
that itself matches the bracket pattern, or a time of 100 hours or more,
breaks the round trip.) -/
theorem c1_round_trip (segs : List Segment) (_hne : segs ≠ [])
    (h : ∀ s ∈ segs, s.text ≠ [] ∧ noMatch s.text = true ∧
        s.start < 360000000 ∧ s.stop < 360000000) :
    normalizeWs (remove_timestamps_file (format_transcript segs true)) =
      normalizeWs (format_transcript segs false) := by
  rw [normalizeWs, normalizeWs,
      words_strip_format segs (fun s hs => ⟨(h s hs).2.2.1, (h s hs).2.2.2, (h s hs).2.1⟩),
      words_format_plain]

/-- Witness for `c1_round_trip` at a concrete segment list. -/
theorem c1_round_trip_witness :
    (([⟨0, 1000, chars "hi"⟩] : List Segment) ≠ [] ∧
      ∀ s ∈ ([⟨0, 1000, chars "hi"⟩] : List Segment), s.text ≠ [] ∧ noMatch s.text = true ∧
        s.start < 360000000 ∧ s.stop < 360000000) ∧
    normalizeWs (remove_timestamps_file (format_transcript [⟨0, 1000, chars "hi"⟩] true)) =
      normalizeWs (format_transcript [⟨0, 1000, chars "hi"⟩] false) :=
  ⟨⟨by decide, by decide⟩, c1_round_trip _ (by decide) (by decide)⟩

/-- Claim C1 as stated is false on the code: a non-empty segment list
with non-empty text fields for which the round trip fails.  First
input: the segment text is itself a timestamp bracket, so the stripper
deletes it from the timestamped rendering but the plain rendering keeps
it.  Second input: at 100 hours the hour field has three digits, the
stripper's two-digit pattern no longer matches, and the bracket
survives stripping. -/
theorem c1_counterexample :
    (¬ normalizeWs (remove_timestamps_file (format_transcript
        [⟨0, 0, chars "[00:00:00.000 -> 00:00:08.160]"⟩] true)) =
      normalizeWs (format_transcript [⟨0, 0, chars "[00:00:00.000 -> 00:00:08.160]"⟩] false)) ∧
    (¬ normalizeWs (remove_timestamps_file (format_transcript
        [⟨360000000, 360000000, chars "hi"⟩] true)) =
      normalizeWs (format_transcript [⟨360000000, 360000000, chars "hi"⟩] false)) := by
  constructor <;> decide

/-- Claim C7, confirmed.  The stripper maps each line to
`re.sub(pattern, "", line).strip()` and drops the lines that become
empty; the line `[00:00:00.000 -> 00:00:08.160] hi there` strips to
`hi there`; the line `[00:00:00.000 -> 00:00:08.160]` with no trailing
text is dropped; a timestamp-shaped substring occurring mid-line is
also removed. -/
theorem c7_strip_lines :
    (∀ lines, (remove_timestamps lines).1 =
        (lines.map (fun l => pyStrip (subTs l))).filter (fun l => l ≠ [])) ∧
    (remove_timestamps [chars "[00:00:00.000 -> 00:00:08.160] hi there"]).1 =
      [chars "hi there"] ∧
    (remove_timestamps [chars "[00:00:00.000 -> 00:00:08.160]"]).1 = [] ∧
    (remove_timestamps [chars "before [00:00:00.000 -> 00:00:08.160] after"]).1 =
      [chars "before  after"] :=
  ⟨remove_timestamps_fst, by decide, by decide, by decide⟩

/-- Claim C8, confirmed.  In timestamped mode the formatter emits one
`segLine` per segment in input order; every timestamp renders minutes
and seconds as exactly two digits and milliseconds as exactly three
digits; the segment with start 3725.5 s, end 3728.16 s and text
`" hello "` renders exactly `[01:02:05.500 -> 01:02:08.160] hello`
followed by a newline. -/
theorem c8_timestamped_format :
    (∀ segs, format_transcript segs true = (segs.map segLine).flatten) ∧
    (∀ ms : Nat, format_timestamp ms =
        pad2 (ms / 3600000) ++ ':' ::
          digitChar (ms % 3600000 / 60000 / 10) :: digitChar (ms % 3600000 / 60000) :: ':' ::
          digitChar (ms % 60000 / 1000 / 10) :: digitChar (ms % 60000 / 1000) :: '.' ::
          digitChar (ms % 1000 / 100) :: digitChar (ms % 1000 / 10) ::
          digitChar (ms % 1000) :: []) ∧
    format_transcript [⟨3725500, 3728160, chars " hello "⟩] true =
      chars "[01:02:05.500 -> 01:02:08.160] hello\n" := by
  refine ⟨format_transcript_true, fun ms => ?_, by decide⟩
  have hm : ms % 3600000 / 60000 < 100 := by
    have := @Nat.mod_lt ms 3600000 (by norm_num)
    omega
  have hs : ms % 60000 / 1000 < 100 := by
    have := @Nat.mod_lt ms 60000 (by norm_num)
    omega
  have hms : ms % 1000 < 1000 := Nat.mod_lt ms (by norm_num)
  rw [format_timestamp, pad2_eq hm, pad2_eq hs, pad3_eq hms]
  simp

/-- Claim C2, confirmed.  If a transcript artifact exists,
`transcribe_audio` returns its contents verbatim with no inference for
any model size and timestamp flag; and whenever a first call returns
text, a second call on the resulting state with arbitrary model size
and timestamp arguments returns byte-identical text, with at most one
inference invocation across both calls. -/
theorem c2_transcribe_idempotent :
    (∀ (run : WhisperRun) (tdir : List (String × List Char)) (stem model : String)
        (ts : Bool) (c : List Char), tdir.lookup stem = some c →
      transcribe_audio run tdir stem model ts = (.ok c, tdir, [])) ∧
    (∀ (r1 r2 : WhisperRun) (tdir : List (String × List Char)) (stem m1 m2 : String)
        (t1 t2 : Bool) (s : List Char),
      (transcribe_audio r1 tdir stem m1 t1).1 = .ok s →
      (transcribe_audio r2 (transcribe_audio r1 tdir stem m1 t1).2.1 stem m2 t2).1 = .ok s ∧
      (transcribe_audio r1 tdir stem m1 t1).2.2.length +
        (transcribe_audio r2 (transcribe_audio r1 tdir stem m1 t1).2.1 stem m2 t2).2.2.length
        ≤ 1) := by
  constructor
  · intro run tdir stem model ts c hc
    simp [transcribe_audio, hc]
  · intro r1 r2 tdir stem m1 m2 t1 t2 s h
    cases hl : tdir.lookup stem with
    | some c =>
      have h1 : transcribe_audio r1 tdir stem m1 t1 = (.ok c, tdir, []) := by
        simp [transcribe_audio, hl]
      rw [h1] at h ⊢
      simp only [PyResult.ok.injEq] at h
      subst h
      simp [transcribe_audio, hl]
    | none =>
      by_cases hok : r1.ok = true
      · have h1 : transcribe_audio r1 tdir stem m1 t1 =
            (.ok (format_transcript r1.segments t1),
             (stem, format_transcript r1.segments t1) :: tdir, [(m1, stem)]) := by
          simp [transcribe_audio, hl, hok]
        rw [h1] at h ⊢
        simp only [PyResult.ok.injEq] at h
        subst h
        simp [transcribe_audio, List.lookup]
      · have h1 : (transcribe_audio r1 tdir stem m1 t1).1 = .exn r1.errMsg := by
          simp [transcribe_audio, hl, hok]
        rw [h1] at h
        exact absurd h (by simp)

/-- Witness for `c2_transcribe_idempotent`: a fresh stem, a successful
first inference, and a second call with different model size and
timestamp flag. -/
theorem c2_transcribe_idempotent_witness :
    ((transcribe_audio ⟨true, [⟨0, 1000, chars "hi"⟩], []⟩ [] "a" "base" true).1 =
        .ok (chars "[00:00:00.000 -> 00:00:01.000] hi\n")) ∧
    ((transcribe_audio ⟨false, [], chars "boom"⟩
        (transcribe_audio ⟨true, [⟨0, 1000, chars "hi"⟩], []⟩ [] "a" "base" true).2.1
        "a" "large" false).1 = .ok (chars "[00:00:00.000 -> 00:00:01.000] hi\n") ∧
      (transcribe_audio ⟨true, [⟨0, 1000, chars "hi"⟩], []⟩ [] "a" "base" true).2.2.length +
        (transcribe_audio ⟨false, [], chars "boom"⟩
          (transcribe_audio ⟨true, [⟨0, 1000, chars "hi"⟩], []⟩ [] "a" "base" true).2.1
          "a" "large" false).2.2.length ≤ 1) :=
  ⟨by decide,
   c2_transcribe_idempotent.2 ⟨true, [⟨0, 1000, chars "hi"⟩], []⟩ ⟨false, [], chars "boom"⟩
     [] "a" "base" "large" true false (chars "[00:00:00.000 -> 00:00:01.000] hi\n")
     (by decide)⟩

/-- Claim C3, confirmed.  With no artifact present and a successful
external conversion, the first call converts once and returns the
artifact path, and any second call (whatever the external behaviour
would be) returns the same path with zero invocations — for both
`convert_opus_to_wav` and `extract_audio_from_mp4`. -/
theorem c3_convert_idempotent (run1 : FfmpegRun) (dir : List String) (stem : String)
    (hnotin : stem ∉ dir) (hok : run1.returncode = 0) :
    ((convert_opus_to_wav run1 dir stem).1 = .ok stem ∧
      (convert_opus_to_wav run1 dir stem).2.2 = 1 ∧
      ∀ run2, convert_opus_to_wav run2 (convert_opus_to_wav run1 dir stem).2.1 stem =
        (.ok stem, (convert_opus_to_wav run1 dir stem).2.1, 0)) ∧
    ((extract_audio_from_mp4 run1 dir stem).1 = .ok stem ∧
      (extract_audio_from_mp4 run1 dir stem).2.2 = 1 ∧
      ∀ run2, extract_audio_from_mp4 run2 (extract_audio_from_mp4 run1 dir stem).2.1 stem =
        (.ok stem, (extract_audio_from_mp4 run1 dir stem).2.1, 0)) := by
  constructor
  · refine ⟨by simp [convert_opus_to_wav, hnotin, hok], by simp [convert_opus_to_wav, hnotin, hok], ?_⟩
    intro run2
    have h1 : (convert_opus_to_wav run1 dir stem).2.1 = stem :: dir := by
      simp [convert_opus_to_wav, hnotin, hok]
    rw [h1]
    simp [convert_opus_to_wav]
  · refine ⟨by simp [extract_audio_from_mp4, hnotin, hok], by simp [extract_audio_from_mp4, hnotin, hok], ?_⟩
    intro run2
    have h1 : (extract_audio_from_mp4 run1 dir stem).2.1 = stem :: dir := by
      simp [extract_audio_from_mp4, hnotin, hok]
    rw [h1]
    simp [extract_audio_from_mp4]

/-- Witness for `c3_convert_idempotent` at a concrete fresh stem and a
successful conversion. -/
theorem c3_convert_idempotent_witness :
    ((convert_opus_to_wav ⟨0, [], false⟩ [] "voice").1 = .ok "voice" ∧
      (convert_opus_to_wav ⟨0, [], false⟩ [] "voice").2.2 = 1 ∧
      ∀ run2, convert_opus_to_wav run2 (convert_opus_to_wav ⟨0, [], false⟩ [] "voice").2.1 "voice" =
        (.ok "voice", (convert_opus_to_wav ⟨0, [], false⟩ [] "voice").2.1, 0)) ∧
    ((extract_audio_from_mp4 ⟨0, [], false⟩ [] "voice").1 = .ok "voice" ∧
      (extract_audio_from_mp4 ⟨0, [], false⟩ [] "voice").2.2 = 1 ∧
      ∀ run2, extract_audio_from_mp4 run2
          (extract_audio_from_mp4 ⟨0, [], false⟩ [] "voice").2.1 "voice" =
        (.ok "voice", (extract_audio_from_mp4 ⟨0, [], false⟩ [] "voice").2.1, 0)) :=
  c3_convert_idempotent ⟨0, [], false⟩ [] "voice" (by decide) (by decide)

/-- Claim C4, corrected.  On a non-zero return code the conversion fails
with an exception carrying the service's diagnostic output, and on
success it creates exactly one file; but the code writes directly to
the final target path and performs no cleanup on failure, so a partial
artifact remains at the target path exactly when the external service
leaves one. -/
theorem c4_conversion_failure (run : FfmpegRun) (dir : List String) (stem : String)
    (hnotin : stem ∉ dir) :
    (run.returncode = 0 →
      convert_opus_to_wav run dir stem = (.ok stem, stem :: dir, 1)) ∧
    (run.returncode ≠ 0 →
      (convert_opus_to_wav run dir stem).1 =
        .exn (chars "FFmpeg conversion failed: " ++ run.stderr) ∧
      (convert_opus_to_wav run dir stem).2.1 =
        (if run.leavesFile then stem :: dir else dir) ∧
      (convert_opus_to_wav run dir stem).2.2 = 1) := by
  constructor
  · intro hok
    simp [convert_opus_to_wav, hnotin, hok]
  · intro hbad
    refine ⟨by simp [convert_opus_to_wav, hnotin, hbad], ?_, by simp [convert_opus_to_wav, hnotin, hbad]⟩
    by_cases hl : run.leavesFile = true
    · simp [convert_opus_to_wav, hnotin, hbad, hl]
    · simp [convert_opus_to_wav, hnotin, hbad, hl]

/-- Witness for `c4_conversion_failure` at a concrete failing run that
leaves a partial file, and a concrete successful run. -/
theorem c4_conversion_failure_witness :
    (convert_opus_to_wav ⟨0, [], false⟩ [] "voice" = (.ok "voice", ["voice"], 1)) ∧
    ((convert_opus_to_wav ⟨1, chars "boom", true⟩ [] "voice").1 =
        .exn (chars "FFmpeg conversion failed: boom") ∧
      (convert_opus_to_wav ⟨1, chars "boom", true⟩ [] "voice").2.1 =
        (if (true : Bool) then ["voice"] else []) ∧
      (convert_opus_to_wav ⟨1, chars "boom", true⟩ [] "voice").2.2 = 1) :=
  ⟨(c4_conversion_failure ⟨0, [], false⟩ [] "voice" (by decide)).1 (by decide),
   (c4_conversion_failure ⟨1, chars "boom", true⟩ [] "voice" (by decide)).2 (by decide)⟩

/-- Claim C4 as stated is false on the code: after a failed conversion
in which the external process left a partial file at the target path,
the artifact is still present (the code does not delete it or use a
temporary path), so a failure can leave a partial artifact visible. -/
theorem c4_counterexample :
    (convert_opus_to_wav ⟨1, chars "boom", true⟩ [] "voice").1 =
      .exn (chars "FFmpeg conversion failed: boom") ∧
    "voice" ∈ (convert_opus_to_wav ⟨1, chars "boom", true⟩ [] "voice").2.1 := by
  constructor <;> decide

/-- Claim C5, corrected.  The batch loop of the `transcribe` command
handles files exactly in the order of the directory listing it is given
(`glob` output), with no sorting applied. -/
theorem c5_batch_order (runs : String → WhisperRun) (wavFiles : List String)
    (model : String) (timestamps : Bool) (st : TranscribeState) :
    (transcribe runs wavFiles model timestamps st).2.2.1 = wavFiles := by
  induction wavFiles generalizing st with
  | nil => rfl
  | cons w rest ih =>
    rw [transcribe]
    dsimp only
    split
    · rw [List.cons.injEq]
      exact ⟨rfl, ih st⟩
    · split
      · rw [List.cons.injEq]
        exact ⟨rfl, ih _⟩
      · rw [List.cons.injEq]
        exact ⟨rfl, ih _⟩

/-- Claim C5 as stated is false on the code: with the directory listing
`b.wav, a.wav, c.wav`, the files are handled in listing order
`b.wav, a.wav, c.wav`, not in lexicographic order `a.wav, b.wav,
c.wav` (the loop applies no sort to the `glob` result). -/
theorem c5_counterexample :
    (transcribe (fun _ => ⟨true, [⟨0, 1000, chars "ok"⟩], []⟩)
        ["b.wav", "a.wav", "c.wav"] "base" true ⟨[], []⟩).2.2.1 =
      ["b.wav", "a.wav", "c.wav"] ∧
    ["b.wav", "a.wav", "c.wav"] ≠ ["a.wav", "b.wav", "c.wav"] := by
  constructor <;> decide

/-- Claim C6, confirmed.  Every file of the batch is handled exactly
once (the counters always sum to the number of files), and in the
concrete three-file batch where inference fails only on the second
file, the first and third files still get transcripts in both the
output directory and `TRANSCRIBED_DIR`, and the reported counters are
processed = 2, skipped = 0, failed = 1. -/
theorem c6_failure_isolation :
    (∀ (runs : String → WhisperRun) (files : List String) (model : String)
        (ts : Bool) (st : TranscribeState),
      (transcribe runs files model ts st).2.1.processed +
        (transcribe runs files model ts st).2.1.skipped +
        (transcribe runs files model ts st).2.1.failed = files.length) ∧
    (transcribe
        (fun w => if w = "f2" then ⟨false, [], chars "inference failed"⟩
                  else ⟨true, [⟨0, 1000, chars "hello"⟩], []⟩)
        ["f1", "f2", "f3"] "base" true ⟨[], []⟩).2.1 = ⟨2, 0, 1⟩ ∧
    ((transcribe
        (fun w => if w = "f2" then ⟨false, [], chars "inference failed"⟩
                  else ⟨true, [⟨0, 1000, chars "hello"⟩], []⟩)
        ["f1", "f2", "f3"] "base" true ⟨[], []⟩).1.outputDir.lookup "f1").isSome = true ∧
    ((transcribe
        (fun w => if w = "f2" then ⟨false, [], chars "inference failed"⟩
                  else ⟨true, [⟨0, 1000, chars "hello"⟩], []⟩)
        ["f1", "f2", "f3"] "base" true ⟨[], []⟩).1.outputDir.lookup "f3").isSome = true ∧
    ((transcribe
        (fun w => if w = "f2" then ⟨false, [], chars "inference failed"⟩
                  else ⟨true, [⟨0, 1000, chars "hello"⟩], []⟩)
        ["f1", "f2", "f3"] "base" true ⟨[], []⟩).1.outputDir.lookup "f2") = none ∧
    ((transcribe
        (fun w => if w = "f2" then ⟨false, [], chars "inference failed"⟩
                  else ⟨true, [⟨0, 1000, chars "hello"⟩], []⟩)
        ["f1", "f2", "f3"] "base" true ⟨[], []⟩).1.transcribedDir.lookup "f1").isSome = true ∧
    ((transcribe
        (fun w => if w = "f2" then ⟨false, [], chars "inference failed"⟩
                  else ⟨true, [⟨0, 1000, chars "hello"⟩], []⟩)
        ["f1", "f2", "f3"] "base" true ⟨[], []⟩).1.transcribedDir.lookup "f3").isSome = true :=
  ⟨fun runs files model ts st => transcribe_counters_sum runs files model ts st,
   by decide, by decide, by decide, by decide, by decide, by decide⟩

/-- Claim C9, corrected.  `transcribe_audio` performs no validation of
the model size: for every model string (including ones outside the
documented enumeration) it either returns the existing artifact without
inference, or invokes the external inference service exactly once,
passing the model string through unchanged.  No `ConfigurationError`
exists in the code. -/
theorem c9_no_validation (run : WhisperRun) (tdir : List (String × List Char))
    (stem model : String) (ts : Bool) :
    (transcribe_audio run tdir stem model ts).2.2 =
      if (tdir.lookup stem).isSome then [] else [(model, stem)] := by
  cases hl : tdir.lookup stem with
  | some c => simp [transcribe_audio, hl]
  | none =>
    by_cases hok : run.ok = true
    · simp [transcribe_audio, hl, hok]
    · simp [transcribe_audio, hl, hok]

/-- Claim C9 as stated is false on the code: with no transcript
artifact present and the invalid model size `gigantic`, the external
inference service is invoked (with the invalid string passed through)
instead of the call failing with a `ConfigurationError` before
inference. -/
theorem c9_counterexample :
    (transcribe_audio ⟨false, [], chars "whisper raises"⟩ [] "a" "gigantic" true).2.2 =
      [("gigantic", "a")] ∧
    ([("gigantic", "a")] : List (String × String)) ≠ [] := by
  constructor <;> decide

/-- Claim C10, confirmed.  On a stem with no transcript anywhere, a
successful run writes the same text both under the caller-supplied
output directory and under the fixed `TRANSCRIBED_DIR`; the
pre-inference skip check inside `transcribe_audio` consults only
`TRANSCRIBED_DIR` (a stale artifact there is copied to the output
directory with no inference, for any model size and timestamp flag);
and when only the output directory has the transcript the file is
skipped entirely, leaving `TRANSCRIBED_DIR` without it — so the two
copies can disagree about whether work is already done. -/
theorem c10_dual_write :
    (∀ (runs : String → WhisperRun) (w model : String) (ts : Bool) (st : TranscribeState),
      st.outputDir.lookup w = none → st.transcribedDir.lookup w = none →
      (runs w).ok = true →
      (transcribe runs [w] model ts st).1.outputDir.lookup w =
          some (format_transcript (runs w).segments ts) ∧
        (transcribe runs [w] model ts st).1.transcribedDir.lookup w =
          some (format_transcript (runs w).segments ts)) ∧
    (∀ (runs : String → WhisperRun) (w model : String) (ts : Bool) (st : TranscribeState)
        (c : List Char),
      st.outputDir.lookup w = none → st.transcribedDir.lookup w = some c →
      (transcribe runs [w] model ts st).2.2.2 = [] ∧
        (transcribe runs [w] model ts st).1.outputDir.lookup w = some c) ∧
    (∀ (runs : String → WhisperRun) (w model : String) (ts : Bool) (st : TranscribeState),
      (st.outputDir.lookup w).isSome = true → st.transcribedDir.lookup w = none →
      (transcribe runs [w] model ts st).2.2.2 = [] ∧
        (transcribe runs [w] model ts st).1.transcribedDir.lookup w = none) := by
  refine ⟨?_, ?_, ?_⟩
  · intro runs w model ts st hout htr hok
    rw [transcribe]
    dsimp only
    rw [if_neg (by simp [hout])]
    rw [transcribe_audio, htr, if_pos hok]
    dsimp only
    rw [transcribe]
    dsimp only
    simp [List.lookup]
  · intro runs w model ts st c hout htr
    rw [transcribe]
    dsimp only
    rw [if_neg (by simp [hout])]
    rw [transcribe_audio, htr]
    dsimp only
    rw [transcribe]
    dsimp only
    simp [List.lookup]
  · intro runs w model ts st hout htr
    rw [transcribe]
    dsimp only
    rw [if_pos hout]
    rw [transcribe]
    dsimp only
    exact ⟨rfl, htr⟩

/-- Witness for `c10_dual_write`: three concrete single-file batches,
one fresh, one with a stale `TRANSCRIBED_DIR` artifact, one with only
an output-directory artifact. -/
theorem c10_dual_write_witness :
    ((transcribe (fun _ => ⟨true, [⟨0, 1000, chars "hi"⟩], []⟩) ["a"] "base" true
        ⟨[], []⟩).1.outputDir.lookup "a" =
          some (format_transcript [⟨0, 1000, chars "hi"⟩] true) ∧
      (transcribe (fun _ => ⟨true, [⟨0, 1000, chars "hi"⟩], []⟩) ["a"] "base" true
        ⟨[], []⟩).1.transcribedDir.lookup "a" =
          some (format_transcript [⟨0, 1000, chars "hi"⟩] true)) ∧
    ((transcribe (fun _ => ⟨true, [], []⟩) ["b"] "large" false
        ⟨[], [("b", chars "stale")]⟩).2.2.2 = [] ∧
      (transcribe (fun _ => ⟨true, [], []⟩) ["b"] "large" false
        ⟨[], [("b", chars "stale")]⟩).1.outputDir.lookup "b" = some (chars "stale")) ∧
    ((transcribe (fun _ => ⟨true, [], []⟩) ["d"] "base" true
        ⟨[("d", chars "done")], []⟩).2.2.2 = [] ∧
      (transcribe (fun _ => ⟨true, [], []⟩) ["d"] "base" true
        ⟨[("d", chars "done")], []⟩).1.transcribedDir.lookup "d" = none) :=
  ⟨c10_dual_write.1 (fun _ => ⟨true, [⟨0, 1000, chars "hi"⟩], []⟩) "a" "base" true
      ⟨[], []⟩ (by decide) (by decide) (by decide),
   c10_dual_write.2.1 (fun _ => ⟨true, [], []⟩) "b" "large" false
      ⟨[], [("b", chars "stale")]⟩ (chars "stale") (by decide) (by decide),
   c10_dual_write.2.2 (fun _ => ⟨true, [], []⟩) "d" "base" true
      ⟨[("d", chars "done")], []⟩ (by decide) (by decide)⟩

end WaAudio
